import Mathlib

/-!
Shallow embedding of `scripts/sync-python.py`.

Python `str` values are modelled as Lean `String` (whose `data` field is a
`List Char`); python dicts (which preserve insertion order) are modelled as
association lists `List (String × String)` where assignment to an existing key
updates the value in place and assignment to a fresh key appends.  Python sets
of strings are modelled as duplicate-free `List String` built with `setAdd`.
The per-package `pip show` subprocess call is modelled by an explicit
environment `String → PipShowResult`.
-/

set_option autoImplicit false

namespace SyncPython

/-- Python `str.strip` whitespace characters. -/
def isPyWs (c : Char) : Bool :=
  c = ' ' || c = '\t' || c = '\n' || c = '\r' || c = '\x0b' || c = '\x0c'

/-- Python `str.strip()` on a character list: drop leading and trailing whitespace. -/
def pyStrip (l : List Char) : List Char :=
  ((l.dropWhile isPyWs).reverse.dropWhile isPyWs).reverse

/-- A character matched by the regex class `[-_.]`. -/
def isSep (c : Char) : Bool :=
  c = '-' || c = '_' || c = '.'

/-- `re.sub(r"[-_.]+", "-", ·)` on a character list: each maximal run of
`-`, `_`, `.` becomes a single `-`. -/
def collapseSeps : List Char → List Char
  | [] => []
  | [c] => if isSep c then ['-'] else [c]
  | c :: c2 :: cs =>
    if isSep c && isSep c2 then collapseSeps (c2 :: cs)
    else (if isSep c then '-' else c) :: collapseSeps (c2 :: cs)

/-- `normalize_package_name` from the source: `re.sub(r"[-_.]+", "-", name).lower()`. -/
def normalize_package_name (name : String) : String :=
  String.mk ((collapseSeps name.data).map Char.toLower)

/-- Position (in the list) just past the first `]`, provided no newline occurs
before it; mirrors one attempted match of the lazy regex `\[.*?\]` whose `.`
does not match newlines. -/
def findCloseIdx : List Char → Option Nat
  | [] => none
  | c :: cs =>
    if c = ']' then some 0
    else if c = '\n' then none
    else (findCloseIdx cs).map (· + 1)

/-- Fuel-driven worker for `removeExtras`; each step consumes at least one
character, so `fuel = l.length` always suffices. -/
def removeExtrasFuel : Nat → List Char → List Char
  | 0, l => l
  | _ + 1, [] => []
  | n + 1, c :: cs =>
    if c = '[' then
      match findCloseIdx cs with
      | some i => removeExtrasFuel n (cs.drop (i + 1))
      | none => c :: removeExtrasFuel n cs
    else c :: removeExtrasFuel n cs

/-- `re.sub(r"\[.*?\]", "", ·)`: repeatedly delete the leftmost, shortest
bracketed segment containing no newline. -/
def removeExtras (l : List Char) : List Char :=
  removeExtrasFuel l.length l

/-- A character matched by the regex class `[a-zA-Z0-9_-]`. -/
def isIdentChar (c : Char) : Bool :=
  c.isAlpha || c.isDigit || c = '_' || c = '-'

/-- `parse_requirement` from the source: strip extras `[...]`, strip whitespace,
match the leading identifier token and normalize it; `""` when no token. -/
def parse_requirement (req : String) : String :=
  let cleaned := removeExtras req.data
  let stripped := pyStrip cleaned
  let tok := stripped.takeWhile isIdentChar
  if tok.isEmpty then "" else normalize_package_name (String.mk tok)

/-- Split a character list at the first occurrence of `==`
(python `line.split("==", 1)` when `"==" in line`); `none` when absent. -/
def splitEqEq : List Char → Option (List Char × List Char)
  | [] => none
  | '=' :: '=' :: rest => some ([], rest)
  | c :: cs => (splitEqEq cs).map (fun p => (c :: p.1, p.2))

/-- `parse_freeze_line` from the source. -/
def parse_freeze_line (line : String) : Option (String × String) :=
  let l := pyStrip line.data
  if l.isEmpty then none
  else if l.head? = some '#' then none
  else if l.head? = some '-' then none
  else
    match splitEqEq l with
    | some (name, version) => some (normalize_package_name (String.mk name), String.mk version)
    | none => none

/-- Python dict assignment `d[k] = v` on an insertion-ordered association list:
update in place when the key exists, append otherwise. -/
def dictInsert (d : List (String × String)) (k v : String) : List (String × String) :=
  if d.any (fun p => p.1 == k) then
    d.map (fun p => if p.1 == k then (p.1, v) else p)
  else d ++ [(k, v)]

/-- The keys of an association list, in order. -/
def dictKeys (d : List (String × String)) : List String :=
  d.map Prod.fst

/-- Python `d.get(k)` / `d[k]` on an association list. -/
def dictLookup (d : List (String × String)) (k : String) : Option String :=
  (d.find? (fun p => p.1 == k)).map Prod.snd

/-- One iteration of the freeze-loading loop in `main`:
`parsed = parse_freeze_line(line); if parsed: installed[parsed[0]] = parsed[1]`. -/
def freezeStep (d : List (String × String)) (line : String) : List (String × String) :=
  match parse_freeze_line line with
  | some (k, v) => dictInsert d k v
  | none => d

/-- The freeze-loading loop in `main`, over the lines of the freeze file. -/
def build_installed (lines : List String) : List (String × String) :=
  lines.foldl freezeStep []

/-- The fields of `pyproject.toml` that `get_declared_packages` reads:
`project.dependencies`, `project.optional-dependencies.gpu`,
`project.optional-dependencies.staged` (each defaulting to `[]`). -/
structure Pyproject where
  dependencies : List String
  gpu : List String
  staged : List String

/-- The three declared name sets returned by `get_declared_packages`. -/
structure Declared where
  core : List String
  gpu : List String
  staged : List String

/-- Python `s.add(x)` on a set modelled as a duplicate-free list. -/
def setAdd (s : List String) (x : String) : List String :=
  if s.contains x then s else s ++ [x]

/-- One of the three loops of `get_declared_packages`:
`name = parse_requirement(dep); if name: result[cat].add(name)`. -/
def addValid (s : List String) (deps : List String) : List String :=
  deps.foldl (fun acc dep =>
    let name := parse_requirement dep
    if name.isEmpty then acc else setAdd acc name) s

/-- `get_declared_packages` from the source. -/
def get_declared_packages (p : Pyproject) : Declared :=
  { core := addValid [] p.dependencies
    gpu := addValid [] p.gpu
    staged := addValid [] p.staged }

/-- Outcome of the `pip show <package>` subprocess call in `get_required_by`:
either it raised (`subprocess.TimeoutExpired` or any other exception), or it
completed with a return code and a stdout text. -/
inductive PipShowResult where
  | crashed
  | completed (returncode : Int) (stdout : String)

/-- Python `line.split(":", 1)[1]` assuming a colon is present:
everything after the first colon. -/
def afterFirstColon (l : List Char) : List Char :=
  (l.dropWhile (fun c => !(c == ':'))).tail

/-- Python `s.split(",")` on a character list. -/
def splitOnComma : List Char → List (List Char)
  | [] => [[]]
  | c :: cs =>
    if c = ',' then [] :: splitOnComma cs
    else
      match splitOnComma cs with
      | [] => [[c]]
      | h :: t => (c :: h) :: t

/-- The stdout-scanning loop of `get_required_by`: the first line starting with
`Required-by:` determines the result; without one the loop falls through to
`return []`. -/
def requiredByOf : List String → List String
  | [] => []
  | line :: rest =>
    if line.startsWith "Required-by:" then
      let deps := pyStrip (afterFirstColon line.data)
      if deps.isEmpty then []
      else (splitOnComma deps).map (fun d => String.mk (pyStrip d))
    else requiredByOf rest

/-- `get_required_by` from the source, with the subprocess behaviour supplied
as an environment mapping a package name to its `pip show` outcome. -/
def get_required_by (env : String → PipShowResult) (package : String) : List String :=
  match env package with
  | .crashed => []
  | .completed rc out =>
    if rc ≠ 0 then []
    else requiredByOf (out.splitOn "\n")

/-- The five bucket labels of `categorize_packages`. -/
inductive Bucket where
  | core
  | gpu
  | staged
  | staged_new
  | transitive
deriving DecidableEq

/-- The `categories` dict of `categorize_packages`: five insertion-ordered
name→version maps. -/
structure Categories where
  core : List (String × String)
  gpu : List (String × String)
  staged : List (String × String)
  staged_new : List (String × String)
  transitive : List (String × String)
deriving DecidableEq

/-- Bucket selection on a `Categories` record. -/
def Categories.get (c : Categories) : Bucket → List (String × String)
  | .core => c.core
  | .gpu => c.gpu
  | .staged => c.staged
  | .staged_new => c.staged_new
  | .transitive => c.transitive

/-- The initial `categories` dict: five empty maps. -/
def emptyCategories : Categories :=
  ⟨[], [], [], [], []⟩

/-- The body of the `for pkg, version in installed.items()` loop of
`categorize_packages`, with the reverse-dependency lookup abstracted as
`required_by`. -/
def categorizeStep (declared : Declared) (required_by : String → List String)
    (check_transitive : Bool) (cats : Categories) (pv : String × String) : Categories :=
  let pkg := pv.1
  let version := pv.2
  let normalized := normalize_package_name pkg
  if declared.core.contains normalized then
    { cats with core := dictInsert cats.core pkg version }
  else if declared.gpu.contains normalized then
    { cats with gpu := dictInsert cats.gpu pkg version }
  else if declared.staged.contains normalized then
    { cats with staged := dictInsert cats.staged pkg version }
  else if check_transitive then
    if (required_by pkg).isEmpty then
      { cats with staged_new := dictInsert cats.staged_new pkg version }
    else
      { cats with transitive := dictInsert cats.transitive pkg version }
  else
    { cats with staged_new := dictInsert cats.staged_new pkg version }

/-- `categorize_packages` from the source. -/
def categorize_packages (installed : List (String × String)) (declared : Declared)
    (required_by : String → List String) (check_transitive : Bool) : Categories :=
  installed.foldl (categorizeStep declared required_by check_transitive) emptyCategories

/-- The bucket a given package name is routed to: the branch structure of
`categorize_packages`, separated from the dict updates. -/
def classify (declared : Declared) (required_by : String → List String)
    (check_transitive : Bool) (pkg : String) : Bucket :=
  let normalized := normalize_package_name pkg
  if declared.core.contains normalized then .core
  else if declared.gpu.contains normalized then .gpu
  else if declared.staged.contains normalized then .staged
  else if check_transitive then
    if (required_by pkg).isEmpty then .staged_new else .transitive
  else .staged_new

/-- The exit logic at the end of `main`: `sys.exit(1)` when
`categories["staged_new"]` is non-empty, else `sys.exit(0)`. -/
def main_exit_code (installed : List (String × String)) (declared : Declared)
    (required_by : String → List String) (skip_transitive_check : Bool) : Nat :=
  let categories := categorize_packages installed declared required_by (!skip_transitive_check)
  if categories.staged_new.isEmpty then 0 else 1

/-- Python string comparison `s <= t` (lexicographic by code point) on
character lists. -/
def charListLe : List Char → List Char → Bool
  | [], _ => true
  | _ :: _, [] => false
  | c :: cs, d :: ds =>
    if c.toNat < d.toNat then true
    else if d.toNat < c.toNat then false
    else charListLe cs ds

/-- Python tuple comparison `(k₁, v₁) <= (k₂, v₂)` used by
`sorted(installed.items())`: keys first, versions break ties. -/
def pairLe (a b : String × String) : Bool :=
  if a.1 = b.1 then charListLe a.2.data b.2.data
  else charListLe a.1.data b.1.data

/-- Insert into a list sorted by `pairLe`, keeping earlier elements first on
ties (stability, as python `sorted`). -/
def insertPair (x : String × String) : List (String × String) → List (String × String)
  | [] => [x]
  | y :: ys => if pairLe x y then x :: y :: ys else y :: insertPair x ys

/-- Python `sorted(installed.items())`. -/
def sortPairs (l : List (String × String)) : List (String × String) :=
  l.foldr insertPair []

/-- One `{pkg} = "{ver}"` line of the snapshot body. -/
def fmtPkgLine (pv : String × String) : String :=
  pv.1 ++ " = \"" ++ pv.2 ++ "\""

/-- The lines of `generate_snapshot`, with the timestamp supplied as the
`date` parameter. -/
def generate_snapshot_lines (installed : List (String × String))
    (cluster version date : String) : List String :=
  ["# Python package snapshot",
   "# Cluster: " ++ cluster,
   "# Bioc Version: " ++ version,
   "# Date: " ++ date,
   "# Packages: " ++ toString installed.length,
   "",
   "[packages]"]
  ++ (sortPairs installed).map fmtPkgLine

/-- `generate_snapshot` from the source: the lines joined by `"\n"`. -/
def generate_snapshot (installed : List (String × String))
    (cluster version date : String) : String :=
  String.intercalate "\n" (generate_snapshot_lines installed cluster version date)

/-- The failure modes of the `pip show` query that `get_required_by` swallows:
the subprocess raised (timeout or any exception), exited non-zero, or produced
no `Required-by:` line on stdout. -/
def QueryFailed : PipShowResult → Prop
  | .crashed => True
  | .completed rc out =>
      rc ≠ 0 ∨ ∀ line ∈ out.splitOn "\n", ¬ line.startsWith "Required-by:"

/-- Whether two manifest dependency lists declare disjoint (normalized)
package-name sets. -/
def disjointNames (l₁ l₂ : List String) : Bool :=
  (l₁.map parse_requirement).all fun x => !((l₂.map parse_requirement).contains x)

theorem bucket_eq_cases (b : Bucket) :
    b = .core ∨ b = .gpu ∨ b = .staged ∨ b = .staged_new ∨ b = .transitive := by
  cases b <;> simp

theorem emptyCategories_get (b : Bucket) : emptyCategories.get b = [] := by
  cases b <;> rfl

theorem dictKeys_dictInsert (d : List (String × String)) (k v : String) :
    dictKeys (dictInsert d k v) =
      if k ∈ dictKeys d then dictKeys d else dictKeys d ++ [k] := by
  by_cases h : k ∈ dictKeys d
  · rw [if_pos h]
    have hany : d.any (fun p => p.1 == k) = true := by
      rcases List.mem_map.mp h with ⟨p, hp, hpk⟩
      exact List.any_eq_true.mpr ⟨p, hp, by simp [hpk]⟩
    simp only [dictInsert, hany, if_true]
    unfold dictKeys
    rw [List.map_map]
    refine List.map_congr_left fun q hq => ?_
    by_cases hqk : (q.1 == k) = true <;> simp [Function.comp, hqk]
  · rw [if_neg h]
    have hany : d.any (fun p => p.1 == k) = false := by
      refine List.any_eq_false.mpr fun p hp hpk => ?_
      rw [beq_iff_eq] at hpk
      exact h (List.mem_map.mpr ⟨p, hp, hpk⟩)
    simp only [dictInsert, hany, Bool.false_eq_true, if_false]
    unfold dictKeys
    simp

theorem mem_dictKeys_dictInsert {d : List (String × String)} {k v p : String} :
    p ∈ dictKeys (dictInsert d k v) ↔ p ∈ dictKeys d ∨ p = k := by
  rw [dictKeys_dictInsert]
  by_cases h : k ∈ dictKeys d
  · simp only [h, if_true]
    constructor
    · exact Or.inl
    · rintro (hp | rfl)
      · exact hp
      · exact h
  · simp [h]

theorem categorizeStep_get (D : Declared) (R : String → List String) (ct : Bool)
    (cats : Categories) (pv : String × String) (b : Bucket) :
    (categorizeStep D R ct cats pv).get b =
      if classify D R ct pv.1 = b then dictInsert (cats.get b) pv.1 pv.2
      else cats.get b := by
  simp only [categorizeStep, classify]
  split_ifs with h1 h2 h3 h4 h5 <;> cases b <;> simp_all [Categories.get]

theorem mem_keys_categorize_foldl (D : Declared) (R : String → List String) (ct : Bool) :
    ∀ (l : List (String × String)) (cats : Categories) (b : Bucket) (p : String),
      p ∈ dictKeys ((l.foldl (categorizeStep D R ct) cats).get b) ↔
        p ∈ dictKeys (cats.get b) ∨ (p ∈ dictKeys l ∧ classify D R ct p = b) := by
  intro l
  induction l with
  | nil =>
    intro cats b p
    simp [dictKeys]
  | cons pv rest ih =>
    intro cats b p
    rw [List.foldl_cons, ih, categorizeStep_get]
    have hkeys : p ∈ dictKeys (pv :: rest) ↔ p = pv.1 ∨ p ∈ dictKeys rest := by
      simp [dictKeys]
    rw [hkeys]
    by_cases hc : classify D R ct pv.1 = b
    · rw [if_pos hc]
      rw [show (p ∈ dictKeys (dictInsert (cats.get b) pv.1 pv.2)) ↔
            (p ∈ dictKeys (cats.get b) ∨ p = pv.1) from mem_dictKeys_dictInsert]
      constructor
      · rintro ((hp | rfl) | ⟨hr, hcl⟩)
        · exact Or.inl hp
        · exact Or.inr ⟨Or.inl rfl, hc⟩
        · exact Or.inr ⟨Or.inr hr, hcl⟩
      · rintro (hp | ⟨(rfl | hr), hcl⟩)
        · exact Or.inl (Or.inl hp)
        · exact Or.inl (Or.inr rfl)
        · exact Or.inr ⟨hr, hcl⟩
    · rw [if_neg hc]
      constructor
      · rintro (hp | ⟨hr, hcl⟩)
        · exact Or.inl hp
        · exact Or.inr ⟨Or.inr hr, hcl⟩
      · rintro (hp | ⟨(rfl | hr), hcl⟩)
        · exact Or.inl hp
        · exact absurd hcl hc
        · exact Or.inr ⟨hr, hcl⟩

theorem mem_keys_categorize (installed : List (String × String)) (D : Declared)
    (R : String → List String) (ct : Bool) (b : Bucket) (p : String) :
    p ∈ dictKeys ((categorize_packages installed D R ct).get b) ↔
      p ∈ dictKeys installed ∧ classify D R ct p = b := by
  unfold categorize_packages
  rw [mem_keys_categorize_foldl]
  simp [emptyCategories_get, dictKeys]

theorem classify_core (D : Declared) (R : String → List String) (ct : Bool) (pkg : String)
    (h : normalize_package_name pkg ∈ D.core) : classify D R ct pkg = .core := by
  simp [classify, h]

theorem classify_gpu (D : Declared) (R : String → List String) (ct : Bool) (pkg : String)
    (h1 : normalize_package_name pkg ∉ D.core) (h2 : normalize_package_name pkg ∈ D.gpu) :
    classify D R ct pkg = .gpu := by
  simp [classify, h1, h2]

theorem classify_staged (D : Declared) (R : String → List String) (ct : Bool) (pkg : String)
    (h1 : normalize_package_name pkg ∉ D.core) (h2 : normalize_package_name pkg ∉ D.gpu)
    (h3 : normalize_package_name pkg ∈ D.staged) : classify D R ct pkg = .staged := by
  simp [classify, h1, h2, h3]

theorem classify_transitive (D : Declared) (R : String → List String) (pkg : String)
    (h1 : normalize_package_name pkg ∉ D.core) (h2 : normalize_package_name pkg ∉ D.gpu)
    (h3 : normalize_package_name pkg ∉ D.staged) (h5 : R pkg ≠ []) :
    classify D R true pkg = .transitive := by
  simp [classify, h1, h2, h3, h5]

theorem classify_staged_new (D : Declared) (R : String → List String) (ct : Bool) (pkg : String)
    (h1 : normalize_package_name pkg ∉ D.core) (h2 : normalize_package_name pkg ∉ D.gpu)
    (h3 : normalize_package_name pkg ∉ D.staged) (h4 : ct = false ∨ R pkg = []) :
    classify D R ct pkg = .staged_new := by
  rcases h4 with h4 | h4
  · simp [classify, h1, h2, h3, h4]
  · cases ct <;> simp [classify, h1, h2, h3, h4]

/-- C1: for every installed mapping, every three declared sets, and every
behaviour of the reverse-dependency lookup, the five buckets returned by
`categorize_packages` are pairwise disjoint and the union of their key sets
equals the key set of the installed mapping. -/
theorem claim1_partition (installed : List (String × String)) (D : Declared)
    (R : String → List String) (ct : Bool) :
    (∀ b1 b2 : Bucket, b1 ≠ b2 → ∀ p : String,
        p ∈ dictKeys ((categorize_packages installed D R ct).get b1) →
        p ∉ dictKeys ((categorize_packages installed D R ct).get b2)) ∧
    (∀ p : String,
        (p ∈ dictKeys ((categorize_packages installed D R ct).get .core) ∨
         p ∈ dictKeys ((categorize_packages installed D R ct).get .gpu) ∨
         p ∈ dictKeys ((categorize_packages installed D R ct).get .staged) ∨
         p ∈ dictKeys ((categorize_packages installed D R ct).get .staged_new) ∨
         p ∈ dictKeys ((categorize_packages installed D R ct).get .transitive)) ↔
        p ∈ dictKeys installed) := by
  constructor
  · intro b1 b2 hne p h1 h2
    rw [mem_keys_categorize] at h1 h2
    exact hne (h1.2.symm.trans h2.2)
  · intro p
    simp only [mem_keys_categorize]
    constructor
    · rintro (⟨h, _⟩ | ⟨h, _⟩ | ⟨h, _⟩ | ⟨h, _⟩ | ⟨h, _⟩) <;> exact h
    · intro h
      rcases bucket_eq_cases (classify D R ct p) with hb | hb | hb | hb | hb
      · exact Or.inl ⟨h, hb⟩
      · exact Or.inr (Or.inl ⟨h, hb⟩)
      · exact Or.inr (Or.inr (Or.inl ⟨h, hb⟩))
      · exact Or.inr (Or.inr (Or.inr (Or.inl ⟨h, hb⟩)))
      · exact Or.inr (Or.inr (Or.inr (Or.inr ⟨h, hb⟩)))

/-- Witness for C1 at a concrete input: `"x"` declared core lands in the core
bucket only, so by disjointness it is absent from the gpu bucket. -/
theorem claim1_partition_witness :
    "x" ∉ dictKeys ((categorize_packages [("x", "1.0")] ⟨["x"], [], []⟩
      (fun _ => []) true).get .gpu) :=
  (claim1_partition [("x", "1.0")] ⟨["x"], [], []⟩ (fun _ => []) true).1
    .core .gpu (by decide) "x" (by decide)

/-- C2: `categorize_packages` classifies each installed package by the first
matching rule in the priority order core, gpu, staged, transitive, staged_new;
in particular a package declared in both core and staged is classified core. -/
theorem claim2_priority_order (installed : List (String × String)) (D : Declared)
    (R : String → List String) (ct : Bool) (pkg : String)
    (h : pkg ∈ dictKeys installed) :
    (normalize_package_name pkg ∈ D.core →
        pkg ∈ dictKeys ((categorize_packages installed D R ct).get .core)) ∧
    (normalize_package_name pkg ∉ D.core → normalize_package_name pkg ∈ D.gpu →
        pkg ∈ dictKeys ((categorize_packages installed D R ct).get .gpu)) ∧
    (normalize_package_name pkg ∉ D.core → normalize_package_name pkg ∉ D.gpu →
        normalize_package_name pkg ∈ D.staged →
        pkg ∈ dictKeys ((categorize_packages installed D R ct).get .staged)) ∧
    (normalize_package_name pkg ∉ D.core → normalize_package_name pkg ∉ D.gpu →
        normalize_package_name pkg ∉ D.staged → ct = true → R pkg ≠ [] →
        pkg ∈ dictKeys ((categorize_packages installed D R ct).get .transitive)) ∧
    (normalize_package_name pkg ∉ D.core → normalize_package_name pkg ∉ D.gpu →
        normalize_package_name pkg ∉ D.staged → (ct = false ∨ R pkg = []) →
        pkg ∈ dictKeys ((categorize_packages installed D R ct).get .staged_new)) ∧
    (normalize_package_name pkg ∈ D.core → normalize_package_name pkg ∈ D.staged →
        pkg ∈ dictKeys ((categorize_packages installed D R ct).get .core)) := by
  refine ⟨fun h1 => ?_, fun h1 h2 => ?_, fun h1 h2 h3 => ?_,
    fun h1 h2 h3 h4 h5 => ?_, fun h1 h2 h3 h4 => ?_, fun h1 _ => ?_⟩
  · exact (mem_keys_categorize ..).mpr ⟨h, classify_core D R ct pkg h1⟩
  · exact (mem_keys_categorize ..).mpr ⟨h, classify_gpu D R ct pkg h1 h2⟩
  · exact (mem_keys_categorize ..).mpr ⟨h, classify_staged D R ct pkg h1 h2 h3⟩
  · subst h4
    exact (mem_keys_categorize ..).mpr ⟨h, classify_transitive D R pkg h1 h2 h3 h5⟩
  · exact (mem_keys_categorize ..).mpr ⟨h, classify_staged_new D R ct pkg h1 h2 h3 h4⟩
  · exact (mem_keys_categorize ..).mpr ⟨h, classify_core D R ct pkg h1⟩

/-- Witness for C2 at a concrete input: a package declared in both core and
staged is classified core. -/
theorem claim2_priority_order_witness :
    "x" ∈ dictKeys ((categorize_packages [("x", "1.0")] ⟨["x"], [], ["x"]⟩
      (fun _ => []) true).get .core) :=
  (claim2_priority_order [("x", "1.0")] ⟨["x"], [], ["x"]⟩ (fun _ => []) true "x"
    (by decide)).2.2.2.2.2 (by decide) (by decide)

theorem keys_categorize_foldl_congr (D : Declared) (R : String → List String) (ct : Bool) :
    ∀ (l₁ l₂ : List (String × String)) (c₁ c₂ : Categories),
      l₁.map Prod.fst = l₂.map Prod.fst →
      (∀ b, dictKeys (c₁.get b) = dictKeys (c₂.get b)) →
      ∀ b, dictKeys ((l₁.foldl (categorizeStep D R ct) c₁).get b) =
           dictKeys ((l₂.foldl (categorizeStep D R ct) c₂).get b) := by
  intro l₁
  induction l₁ with
  | nil =>
    intro l₂ c₁ c₂ hmap hacc b
    have hl : l₂ = [] := by
      cases l₂ with
      | nil => rfl
      | cons q l => simp at hmap
    subst hl
    exact hacc b
  | cons pv l₁ ih =>
    intro l₂ c₁ c₂ hmap hacc b
    cases l₂ with
    | nil => simp at hmap
    | cons qv l₂ =>
      simp only [List.map_cons, List.cons.injEq] at hmap
      obtain ⟨hfst, hrest⟩ := hmap
      simp only [List.foldl_cons]
      refine ih l₂ (categorizeStep D R ct c₁ pv) (categorizeStep D R ct c₂ qv) hrest ?_ b
      intro b'
      rw [categorizeStep_get, categorizeStep_get, hfst]
      by_cases hc : classify D R ct qv.1 = b'
      · rw [if_pos hc, if_pos hc, dictKeys_dictInsert, dictKeys_dictInsert, hacc b']
      · rw [if_neg hc, if_neg hc]
        exact hacc b'

/-- C10: classification is independent of version strings: two installed
mappings with the same key sequence, declared sets, and reverse-dependency
oracle produce buckets with identical key lists. -/
theorem claim10_version_independent (inst₁ inst₂ : List (String × String))
    (D : Declared) (R : String → List String) (ct : Bool)
    (h : inst₁.map Prod.fst = inst₂.map Prod.fst) (b : Bucket) :
    dictKeys ((categorize_packages inst₁ D R ct).get b) =
      dictKeys ((categorize_packages inst₂ D R ct).get b) :=
  keys_categorize_foldl_congr D R ct inst₁ inst₂ emptyCategories emptyCategories h
    (fun _ => rfl) b

/-- Witness for C10 at a concrete input: changing only the version string does
not change any bucket's key list. -/
theorem claim10_version_independent_witness :
    dictKeys ((categorize_packages [("x", "1.0")] ⟨[], [], []⟩
        (fun _ => []) false).get .staged_new) =
      dictKeys ((categorize_packages [("x", "2.0")] ⟨[], [], []⟩
        (fun _ => []) false).get .staged_new) :=
  claim10_version_independent [("x", "1.0")] [("x", "2.0")] ⟨[], [], []⟩
    (fun _ => []) false rfl .staged_new

/-- C3: the program's exit status is 1 iff the `staged_new` bucket is
non-empty and 0 otherwise; concretely, a single undeclared installed package
with the transitive check skipped exits 1, and a core-declared one exits 0. -/
theorem claim3_exit_code :
    (∀ (installed : List (String × String)) (D : Declared)
        (R : String → List String) (skip : Bool),
      (main_exit_code installed D R skip = 1 ↔
        (categorize_packages installed D R (!skip)).staged_new ≠ []) ∧
      (main_exit_code installed D R skip = 0 ↔
        (categorize_packages installed D R (!skip)).staged_new = [])) ∧
    (∀ R : String → List String,
      main_exit_code [("x", "1.0")] ⟨[], [], []⟩ R true = 1) ∧
    (∀ (R : String → List String) (skip : Bool),
      main_exit_code [("x", "1.0")] ⟨["x"], [], []⟩ R skip = 0) := by
  refine ⟨fun installed D R skip => ?_, fun R => ?_, fun R skip => ?_⟩
  · simp only [main_exit_code]
    cases he : (categorize_packages installed D R (!skip)).staged_new with
    | nil => simp [he]
    | cons a l => simp [he]
  · rfl
  · cases skip <;> rfl

theorem requiredByOf_eq_nil (lines : List String)
    (h : ∀ l ∈ lines, ¬ l.startsWith "Required-by:") : requiredByOf lines = [] := by
  induction lines with
  | nil => rfl
  | cons line rest ih =>
    have h1 : ¬ line.startsWith "Required-by:" := h line (List.mem_cons_self line rest)
    simp only [requiredByOf]
    rw [if_neg h1]
    exact ih fun l hl => h l (List.mem_cons_of_mem _ hl)

theorem get_required_by_failed (env : String → PipShowResult) (pkg : String)
    (h : QueryFailed (env pkg)) : get_required_by env pkg = [] := by
  rcases he : env pkg with _ | ⟨rc, out⟩
  · simp [get_required_by, he]
  · rw [he] at h
    simp only [QueryFailed] at h
    simp only [get_required_by, he]
    rcases h with h | h
    · rw [if_pos h]
    · by_cases hrc : rc ≠ 0
      · rw [if_pos hrc]
      · rw [if_neg hrc]
        exact requiredByOf_eq_nil _ h

theorem classify_ne_transitive (D : Declared) (R : String → List String) (ct : Bool)
    (p : String) (h : R p = []) : classify D R ct p ≠ .transitive := by
  unfold classify
  split_ifs <;> simp_all
  all_goals split_ifs <;> simp_all

/-- C4: any failure of the reverse-dependency query (timeout, nonzero exit,
missing `Required-by:` output, or exception) yields "no dependents"; when the
query fails for every package, the transitive bucket is empty and every
installed package not in any declared set goes to `staged_new`. -/
theorem claim4_fail_open (env : String → PipShowResult)
    (hfail : ∀ pkg, QueryFailed (env pkg)) :
    (∀ pkg, get_required_by env pkg = []) ∧
    (∀ (installed : List (String × String)) (D : Declared),
      (categorize_packages installed D (get_required_by env) true).transitive = [] ∧
      (∀ pv ∈ installed,
        normalize_package_name pv.1 ∉ D.core →
        normalize_package_name pv.1 ∉ D.gpu →
        normalize_package_name pv.1 ∉ D.staged →
        pv.1 ∈ dictKeys
          ((categorize_packages installed D (get_required_by env) true).get
            .staged_new))) := by
  have hnil : ∀ pkg, get_required_by env pkg = [] :=
    fun pkg => get_required_by_failed env pkg (hfail pkg)
  refine ⟨hnil, fun installed D => ⟨?_, ?_⟩⟩
  · have hkeys : dictKeys
        ((categorize_packages installed D (get_required_by env) true).get
          .transitive) = [] := by
      rw [List.eq_nil_iff_forall_not_mem]
      intro p hp
      rw [mem_keys_categorize] at hp
      exact classify_ne_transitive D (get_required_by env) true p (hnil p) hp.2
    exact List.map_eq_nil_iff.mp hkeys
  · intro pv hpv h1 h2 h3
    rw [mem_keys_categorize]
    exact ⟨List.mem_map.mpr ⟨pv, hpv, rfl⟩,
      classify_staged_new D (get_required_by env) true pv.1 h1 h2 h3
        (Or.inr (hnil pv.1))⟩

/-- Witness for C4: with an environment whose `pip show` always raises, the
query returns no dependents and the transitive bucket is empty. -/
theorem claim4_fail_open_witness :
    get_required_by (fun _ => PipShowResult.crashed) "numpy" = [] ∧
    (categorize_packages [("x", "1.0")] ⟨[], [], []⟩
      (get_required_by (fun _ => PipShowResult.crashed)) true).transitive = [] := by
  have h := claim4_fail_open (fun _ => PipShowResult.crashed) (fun _ => True.intro)
  exact ⟨h.1 "numpy", (h.2 [("x", "1.0")] ⟨[], [], []⟩).1⟩

theorem mem_setAdd {s : List String} {x y : String} :
    y ∈ setAdd s x ↔ y ∈ s ∨ y = x := by
  unfold setAdd
  by_cases h : s.contains x = true
  · rw [if_pos h]
    constructor
    · exact Or.inl
    · rintro (hy | rfl)
      · exact hy
      · exact List.elem_iff.mp h
  · rw [if_neg h]
    simp

theorem mem_addValid : ∀ (deps : List String) (s : List String) (x : String),
    x ∈ addValid s deps ↔
      x ∈ s ∨ ∃ dep ∈ deps,
        parse_requirement dep = x ∧ (parse_requirement dep).isEmpty = false := by
  intro deps
  induction deps with
  | nil =>
    intro s x
    simp [addValid]
  | cons dep rest ih =>
    intro s x
    have hstep : addValid s (dep :: rest) =
        addValid
          (if (parse_requirement dep).isEmpty = true then s
           else setAdd s (parse_requirement dep)) rest := rfl
    rw [hstep, ih]
    by_cases hd : (parse_requirement dep).isEmpty = true
    · rw [if_pos hd]
      simp only [List.mem_cons]
      constructor
      · rintro (hs | ⟨d, hdm, hdx, hde⟩)
        · exact Or.inl hs
        · exact Or.inr ⟨d, Or.inr hdm, hdx, hde⟩
      · rintro (hs | ⟨d, (rfl | hdm), hdx, hde⟩)
        · exact Or.inl hs
        · rw [hd] at hde
          cases hde
        · exact Or.inr ⟨d, hdm, hdx, hde⟩
    · rw [if_neg hd]
      have hd' : (parse_requirement dep).isEmpty = false := by
        cases hb : (parse_requirement dep).isEmpty
        · rfl
        · exact absurd hb hd
      simp only [mem_setAdd, List.mem_cons]
      constructor
      · rintro ((hs | rfl) | ⟨d, hdm, hdx, hde⟩)
        · exact Or.inl hs
        · exact Or.inr ⟨dep, Or.inl rfl, rfl, hd'⟩
        · exact Or.inr ⟨d, Or.inr hdm, hdx, hde⟩
      · rintro (hs | ⟨d, (rfl | hdm), hdx, hde⟩)
        · exact Or.inl (Or.inl hs)
        · exact Or.inl (Or.inr hdx.symm)
        · exact Or.inr ⟨d, hdm, hdx, hde⟩

/-- C5 counterexample: a manifest declaring `foo` both under core dependencies
and under the staged group yields overlapping core and staged sets, so the
three sets produced by `get_declared_packages` are not always pairwise
disjoint. -/
theorem claim5_declared_disjoint_cex :
    "foo" ∈ (get_declared_packages ⟨["foo"], [], ["foo>=1.0"]⟩).core ∧
    "foo" ∈ (get_declared_packages ⟨["foo"], [], ["foo>=1.0"]⟩).staged := by
  decide

/-- C5 amended: whenever the manifest's three dependency lists declare
pairwise disjoint (normalized) name sets, the three sets produced by
`get_declared_packages` are pairwise disjoint. -/
theorem claim5_declared_disjoint_amended (p : Pyproject)
    (h12 : disjointNames p.dependencies p.gpu = true)
    (h13 : disjointNames p.dependencies p.staged = true)
    (h23 : disjointNames p.gpu p.staged = true) :
    (∀ x, x ∈ (get_declared_packages p).core → x ∉ (get_declared_packages p).gpu) ∧
    (∀ x, x ∈ (get_declared_packages p).core → x ∉ (get_declared_packages p).staged) ∧
    (∀ x, x ∈ (get_declared_packages p).gpu → x ∉ (get_declared_packages p).staged) := by
  have key : ∀ l₁ l₂ : List String, disjointNames l₁ l₂ = true →
      ∀ x, x ∈ addValid [] l₁ → x ∉ addValid [] l₂ := by
    intro l₁ l₂ hd x hx hy
    rw [mem_addValid] at hx hy
    rcases hx with hx | ⟨d1, hd1, hx1, hne1⟩
    · simp at hx
    rcases hy with hy | ⟨d2, hd2, hx2, hne2⟩
    · simp at hy
    have hmem1 : x ∈ l₁.map parse_requirement := List.mem_map.mpr ⟨d1, hd1, hx1⟩
    have hmem2 : x ∈ l₂.map parse_requirement := List.mem_map.mpr ⟨d2, hd2, hx2⟩
    unfold disjointNames at hd
    have hall := List.all_eq_true.mp hd x hmem1
    rw [Bool.not_eq_true'] at hall
    have hc := List.elem_iff.mpr hmem2
    simp only [List.contains] at hall
    rw [hall] at hc
    cases hc
  exact ⟨key _ _ h12, key _ _ h13, key _ _ h23⟩

/-- Witness for the amended C5 at a concrete manifest with disjoint groups. -/
theorem claim5_declared_disjoint_amended_witness :
    "alpha" ∉ (get_declared_packages ⟨["alpha"], ["beta"], ["gamma"]⟩).gpu :=
  (claim5_declared_disjoint_amended ⟨["alpha"], ["beta"], ["gamma"]⟩
    (by decide) (by decide) (by decide)).1 "alpha" (by decide)

theorem dictLookup_dictInsert_self (d : List (String × String)) (k v : String) :
    dictLookup (dictInsert d k v) k = some v := by
  unfold dictInsert dictLookup
  by_cases h : (d.any fun p => p.1 == k) = true
  · rw [if_pos h]
    rw [List.find?_map]
    have hp : ((fun p : String × String => p.1 == k) ∘
        fun p : String × String => if p.1 == k then (p.1, v) else p) =
        fun p : String × String => p.1 == k := by
      funext q
      by_cases hq : (q.1 == k) = true <;> simp [Function.comp, hq]
    rw [hp]
    rcases List.any_eq_true.mp h with ⟨q, hqd, hqk⟩
    have hsome : (d.find? fun p => p.1 == k).isSome :=
      List.find?_isSome.mpr ⟨q, hqd, hqk⟩
    rcases ho : d.find? (fun p => p.1 == k) with _ | r
    · rw [ho] at hsome
      cases hsome
    · have hr := List.find?_some ho
      simp [ho, beq_iff_eq.mp hr]
  · rw [if_neg h]
    rw [List.find?_append]
    have hnone : d.find? (fun p => p.1 == k) = none :=
      List.find?_eq_none.mpr fun x hx hxk =>
        h (List.any_eq_true.mpr ⟨x, hx, hxk⟩)
    rw [hnone]
    simp

/-- C6: parsing the five example listing lines yields exactly
`{"pkga": "1.2.3", "pkgb": "2.0"}`; non-matching lines leave the mapping
unchanged, and a parsed line overwrites the version stored under its
normalized name. -/
theorem claim6_freeze_parsing :
    build_installed ["# comment", "", "-e ./local", "pkgA==1.2.3", "pkgB==2.0"] =
      [("pkga", "1.2.3"), ("pkgb", "2.0")] ∧
    (∀ (d : List (String × String)) (line : String),
      parse_freeze_line line = none → freezeStep d line = d) ∧
    (∀ (d : List (String × String)) (line k v : String),
      parse_freeze_line line = some (k, v) →
      dictLookup (freezeStep d line) k = some v) := by
  refine ⟨by decide, fun d line h => ?_, fun d line k v h => ?_⟩
  · simp [freezeStep, h]
  · simp only [freezeStep, h]
    exact dictLookup_dictInsert_self d k v

/-- Witness for C6: a comment line is skipped, and a later line for the same
normalized name overwrites the earlier version. -/
theorem claim6_freeze_parsing_witness :
    freezeStep [("pkga", "1.0")] "# note" = [("pkga", "1.0")] ∧
    dictLookup (freezeStep [("pkga", "1.0")] "pkgA==2.0") "pkga" = some "2.0" :=
  ⟨claim6_freeze_parsing.2.1 [("pkga", "1.0")] "# note" (by decide),
   claim6_freeze_parsing.2.2 [("pkga", "1.0")] "pkgA==2.0" "pkga" "2.0" (by decide)⟩

/-- C7: `parse_requirement` strips a bracketed extras suffix, extracts the
leading identifier token and normalizes it, returning `""` when no token
exists: the two spec examples, plus the general empty-token case. -/
theorem claim7_parse_requirement :
    parse_requirement "scanpy[cuda12]>=1.10" = "scanpy" ∧
    parse_requirement "###" = "" ∧
    (∀ req : String,
      (pyStrip (removeExtras req.data)).takeWhile isIdentChar = [] →
      parse_requirement req = "") := by
  refine ⟨by decide, by decide, fun req h => ?_⟩
  simp only [parse_requirement]
  rw [h]
  rfl

/-- Witness for C7: a requirement with no leading identifier parses to `""`. -/
theorem claim7_parse_requirement_witness :
    parse_requirement "==1.0" = "" :=
  claim7_parse_requirement.2.2 "==1.0" (by decide)

/-- C8: `normalize_package_name` lower-cases and collapses every run of
`-`, `_`, `.` to a single `-`: the three spec examples. -/
theorem claim8_normalize :
    normalize_package_name "Foo_Bar.Baz" = "foo-bar-baz" ∧
    normalize_package_name "foo-bar-baz" = "foo-bar-baz" ∧
    normalize_package_name "FOO--BAR..BAZ" = "foo-bar-baz" :=
  ⟨by decide, by decide, by decide⟩

theorem charListLe_refl : ∀ l : List Char, charListLe l l = true := by
  intro l
  induction l with
  | nil => rfl
  | cons c cs ih =>
    unfold charListLe
    rw [if_neg (Nat.lt_irrefl c.toNat), if_neg (Nat.lt_irrefl c.toNat)]
    exact ih

theorem charListLe_total : ∀ l₁ l₂ : List Char,
    charListLe l₁ l₂ = true ∨ charListLe l₂ l₁ = true := by
  intro l₁
  induction l₁ with
  | nil => intro l₂; left; rfl
  | cons c cs ih =>
    intro l₂
    cases l₂ with
    | nil => right; rfl
    | cons d ds =>
      simp only [charListLe]
      rcases Nat.lt_trichotomy c.toNat d.toNat with h | h | h
      · left
        rw [if_pos h]
      · rcases ih ds with h2 | h2
        · left
          rw [if_neg (by omega), if_neg (by omega)]
          exact h2
        · right
          rw [if_neg (by omega), if_neg (by omega)]
          exact h2
      · right
        rw [if_pos h]

theorem charListLe_trans : ∀ l₁ l₂ l₃ : List Char,
    charListLe l₁ l₂ = true → charListLe l₂ l₃ = true → charListLe l₁ l₃ = true := by
  intro l₁
  induction l₁ with
  | nil => intro l₂ l₃ _ _; rfl
  | cons c cs ih =>
    intro l₂ l₃ h1 h2
    cases l₂ with
    | nil => cases h1
    | cons d ds =>
      cases l₃ with
      | nil => cases h2
      | cons e es =>
        simp only [charListLe] at h1 h2 ⊢
        split_ifs at h1 h2 ⊢ <;>
          first
            | rfl
            | (exact ih ds es h1 h2)
            | (exact absurd h1 Bool.false_ne_true)
            | (exact absurd h2 Bool.false_ne_true)
            | (exfalso; omega)

theorem charListLe_antisymm : ∀ l₁ l₂ : List Char,
    charListLe l₁ l₂ = true → charListLe l₂ l₁ = true → l₁ = l₂ := by
  intro l₁
  induction l₁ with
  | nil =>
    intro l₂ _ h2
    cases l₂ with
    | nil => rfl
    | cons d ds => cases h2
  | cons c cs ih =>
    intro l₂ h1 h2
    cases l₂ with
    | nil => cases h1
    | cons d ds =>
      simp only [charListLe] at h1 h2
      split_ifs at h1 h2 <;>
        first
          | (exact absurd h1 Bool.false_ne_true)
          | (exact absurd h2 Bool.false_ne_true)
          | (exfalso; omega)
          | (rw [ih ds h1 h2, Char.ext (UInt32.ext (show c.toNat = d.toNat by omega))])

theorem pairLe_total (a b : String × String) :
    pairLe a b = true ∨ pairLe b a = true := by
  unfold pairLe
  by_cases h : a.1 = b.1
  · rw [if_pos h, if_pos h.symm]
    exact charListLe_total a.2.data b.2.data
  · rw [if_neg h, if_neg (Ne.symm h)]
    exact charListLe_total a.1.data b.1.data

theorem pairLe_trans (a b c : String × String)
    (h1 : pairLe a b = true) (h2 : pairLe b c = true) : pairLe a c = true := by
  unfold pairLe at h1 h2 ⊢
  by_cases hab : a.1 = b.1 <;> by_cases hbc : b.1 = c.1
  · rw [if_pos hab] at h1
    rw [if_pos hbc] at h2
    rw [if_pos (hab.trans hbc)]
    exact charListLe_trans _ _ _ h1 h2
  · rw [if_pos hab] at h1
    rw [if_neg hbc] at h2
    rw [if_neg (fun h => hbc (hab.symm.trans h)), hab]
    exact h2
  · rw [if_neg hab] at h1
    rw [if_pos hbc] at h2
    rw [if_neg (fun h => hab (h.trans hbc.symm)), ← hbc]
    exact h1
  · rw [if_neg hab] at h1
    rw [if_neg hbc] at h2
    by_cases hac : a.1 = c.1
    · exfalso
      rw [hac] at h1
      exact hbc (String.ext (charListLe_antisymm _ _ h2 h1))
    · rw [if_neg hac]
      exact charListLe_trans _ _ _ h1 h2

theorem mem_insertPair {x z : String × String} : ∀ {l : List (String × String)},
    z ∈ insertPair x l ↔ z = x ∨ z ∈ l := by
  intro l
  induction l with
  | nil => simp [insertPair]
  | cons y ys ih =>
    unfold insertPair
    by_cases h : pairLe x y = true
    · rw [if_pos h]
      simp [List.mem_cons, or_comm, or_assoc, or_left_comm]
    · rw [if_neg h]
      simp only [List.mem_cons, ih]
      tauto

theorem pairwise_insertPair (x : String × String) :
    ∀ l : List (String × String),
      l.Pairwise (fun a b => pairLe a b = true) →
      (insertPair x l).Pairwise (fun a b => pairLe a b = true) := by
  intro l
  induction l with
  | nil =>
    intro _
    simp [insertPair]
  | cons y ys ih =>
    intro h
    rw [List.pairwise_cons] at h
    obtain ⟨hy, hys⟩ := h
    unfold insertPair
    by_cases hxy : pairLe x y = true
    · rw [if_pos hxy, List.pairwise_cons]
      refine ⟨?_, List.pairwise_cons.mpr ⟨hy, hys⟩⟩
      intro z hz
      rcases List.mem_cons.mp hz with rfl | hz'
      · exact hxy
      · exact pairLe_trans x y z hxy (hy z hz')
    · rw [if_neg hxy, List.pairwise_cons]
      constructor
      · intro z hz
        rcases mem_insertPair.mp hz with hz0 | hz'
        · rw [hz0]
          rcases pairLe_total x y with h | h
          · exact absurd h hxy
          · exact h
        · exact hy z hz'
      · exact ih hys

theorem insertPair_perm (x : String × String) :
    ∀ l : List (String × String), (insertPair x l).Perm (x :: l) := by
  intro l
  induction l with
  | nil => exact List.Perm.refl _
  | cons y ys ih =>
    unfold insertPair
    by_cases h : pairLe x y = true
    · rw [if_pos h]
    · rw [if_neg h]
      exact (ih.cons y).trans (List.Perm.swap x y ys)

theorem sortPairs_perm : ∀ l : List (String × String), (sortPairs l).Perm l := by
  intro l
  induction l with
  | nil => exact List.Perm.refl _
  | cons a l ih =>
    exact (insertPair_perm a (sortPairs l)).trans (ih.cons a)

theorem sortPairs_sorted :
    ∀ l : List (String × String),
      (sortPairs l).Pairwise (fun a b => pairLe a b = true) := by
  intro l
  induction l with
  | nil => simp [sortPairs]
  | cons a l ih => exact pairwise_insertPair a (sortPairs l) ih

theorem pairLe_key {a b : String × String} (h : pairLe a b = true) :
    charListLe a.1.data b.1.data = true := by
  unfold pairLe at h
  by_cases he : a.1 = b.1
  · rw [he]
    exact charListLe_refl _
  · rw [if_neg he] at h
    exact h

/-- C9: `generate_snapshot` emits the header comment lines, then `[packages]`,
then one `name = "version"` line per installed package sorted by name;
concretely the two-package example appears in order under `[packages]`. -/
theorem claim9_snapshot (installed : List (String × String))
    (cluster version date : String) :
    generate_snapshot_lines installed cluster version date =
      ["# Python package snapshot",
       "# Cluster: " ++ cluster,
       "# Bioc Version: " ++ version,
       "# Date: " ++ date,
       "# Packages: " ++ toString installed.length,
       "",
       "[packages]"] ++ (sortPairs installed).map fmtPkgLine ∧
    (sortPairs installed).Perm installed ∧
    (sortPairs installed).Pairwise (fun a b => charListLe a.1.data b.1.data = true) ∧
    generate_snapshot_lines [("a", "1.0"), ("b", "2.0")] cluster version date =
      ["# Python package snapshot",
       "# Cluster: " ++ cluster,
       "# Bioc Version: " ++ version,
       "# Date: " ++ date,
       "# Packages: 2",
       "",
       "[packages]",
       "a = \"1.0\"",
       "b = \"2.0\""] := by
  refine ⟨rfl, sortPairs_perm installed, ?_, ?_⟩
  · exact (sortPairs_sorted installed).imp fun h => pairLe_key h
  · have hsort : sortPairs [("a", "1.0"), ("b", "2.0")] =
        [("a", "1.0"), ("b", "2.0")] := by decide
    simp [generate_snapshot_lines, hsort, fmtPkgLine]
    decide

end SyncPython
